import Mathlib

/-!
Verification of the scheduling core of the apple-calendar-mcp repository.

The embedding models JavaScript `Date` values by their millisecond epoch
timestamp (`Int`, as returned by `Date.prototype.getTime`).  The local-time
dependent `Date.prototype.getHours` is modelled as an explicit function
parameter `getHours : Int → Int`; the concrete function `utcHours` below is
the UTC instance used for concrete evaluations.

Source files embedded:
* `src/utils/conflict-detector.ts` — `hasOverlap`, `findConflicts`, `isFree`,
  `findFreeSlots`, `calculateMeetingDensity`, `groupEventsByDay`,
  `findOptimalSlot`.
* `src/applescript/event-ops.ts` — the per-line recurrence-expansion body
  shared by `listEvents` and `listAllEvents` (embedded as `expandEventLine`;
  the external `rrule` library call `rrulestr(...).between(qs, qe, true)` is
  passed in as an `Option (List Int)` argument, `none` modelling the `try`
  block throwing on a malformed rule).
-/

namespace AppleCalendar

/-- `interface TimeSlot { start: Date; end: Date }` from
`src/utils/conflict-detector.ts`.  The source field `end` is a Lean keyword
and is rendered `stop` here. -/
structure TimeSlot where
  start : Int
  stop : Int
deriving Repr, DecidableEq

/-- `interface Event` from `src/applescript/event-ops.ts`: uid, summary,
startDate, endDate plus optional location/description/calendar. -/
structure CalEvent where
  uid : String
  summary : String
  startDate : Int
  endDate : Int
  location : Option String := none
  description : Option String := none
  calendar : Option String := none
deriving Repr, DecidableEq

/-- `hasOverlap(slot1, slot2)` from `src/utils/conflict-detector.ts`:
`(slot1.start < slot2.end && slot1.end > slot2.start) ||
 (slot2.start < slot1.end && slot2.end > slot1.start)`. -/
def hasOverlap (slot1 slot2 : TimeSlot) : Bool :=
  (decide (slot1.start < slot2.stop) && decide (slot1.stop > slot2.start)) ||
  (decide (slot2.start < slot1.stop) && decide (slot2.stop > slot1.start))

/-- `findConflicts(timeSlot, events)`: the events whose `[startDate, endDate]`
interval overlaps `timeSlot`, in input order (`events.filter`). -/
def findConflicts (timeSlot : TimeSlot) (events : List CalEvent) : List CalEvent :=
  events.filter fun event =>
    hasOverlap timeSlot { start := event.startDate, stop := event.endDate }

/-- `isFree(timeSlot, events)`: `findConflicts(timeSlot, events).length === 0`. -/
def isFree (timeSlot : TimeSlot) (events : List CalEvent) : Bool :=
  (findConflicts timeSlot events).length == 0

/-- UTC instance of `Date.prototype.getHours`: hour-of-day of a millisecond
timestamp, used to instantiate the abstract `getHours` parameter on concrete
inputs. -/
def utcHours (t : Int) : Int :=
  (t.fdiv (60 * 60 * 1000)) % 24

/-- The `while` loop of `findFreeSlots` in `src/utils/conflict-detector.ts`,
with `currentTime` as the loop variable.  The step is the source constant
`30 * 60 * 1000`.  The loop runs while `currentTime + duration <= endDate`;
under `businessHoursOnly` it skips a candidate whose hour is `< 9 || >= 17`;
otherwise it pushes `{start: currentTime, end: currentTime + duration}` when
`isFree` holds. -/
def findFreeSlots.go (getHours : Int → Int) (endDate : Int) (duration : Int)
    (events : List CalEvent) (businessHoursOnly : Bool) (currentTime : Int) :
    List TimeSlot :=
  if h : currentTime + duration ≤ endDate then
    if businessHoursOnly &&
        (decide (getHours currentTime < 9) || decide (getHours currentTime ≥ 17)) then
      findFreeSlots.go getHours endDate duration events businessHoursOnly
        (currentTime + 30 * 60 * 1000)
    else if isFree ⟨currentTime, currentTime + duration⟩ events then
      ⟨currentTime, currentTime + duration⟩ ::
        findFreeSlots.go getHours endDate duration events businessHoursOnly
          (currentTime + 30 * 60 * 1000)
    else
      findFreeSlots.go getHours endDate duration events businessHoursOnly
        (currentTime + 30 * 60 * 1000)
  else []
termination_by (endDate - duration - currentTime + 1).toNat
decreasing_by all_goals omega

/-- `findFreeSlots(startDate, endDate, duration, events, businessHoursOnly)`
from `src/utils/conflict-detector.ts`: walk candidate starts from `startDate`
in 30-minute steps and collect the free slots of length `duration`. -/
def findFreeSlots (getHours : Int → Int) (startDate endDate : Int) (duration : Int)
    (events : List CalEvent) (businessHoursOnly : Bool) : List TimeSlot :=
  findFreeSlots.go getHours endDate duration events businessHoursOnly startDate

/-- `findOptimalSlot(candidates, events, preferences?)` from
`src/utils/conflict-detector.ts`.  `preferences = none` models an absent
argument.  The JavaScript `scoredSlots.sort((a, b) => b.score - a.score)` is a
stable descending sort by score (ECMAScript `Array.prototype.sort` is stable),
embedded as `mergeSort` with `le a b := b.score ≤ a.score`; `scoredSlots[0]?.slot
|| null` and `freeSlots[0] || null` are `head?` of the respective lists. -/
def findOptimalSlot (getHours : Int → Int) (candidates : List TimeSlot)
    (events : List CalEvent) (preferences : Option (List Int)) : Option TimeSlot :=
  let freeSlots := candidates.filter fun slot => isFree slot events
  if freeSlots.length = 0 then none
  else if freeSlots.length = 1 then freeSlots.head?
  else
    match preferences with
    | some prefs =>
      if 0 < prefs.length then
        let scoredSlots := freeSlots.map fun slot =>
          (slot, if prefs.contains (getHours slot.start) then (1 : Int) else 0)
        let sorted := scoredSlots.mergeSort fun a b => decide (b.2 ≤ a.2)
        sorted.head?.map Prod.fst
      else freeSlots.head?
    | none => freeSlots.head?

/-- `calculateMeetingDensity(events, startDate, endDate)` from
`src/utils/conflict-detector.ts`:
`days = Math.ceil((endDate - startDate) / 86400000); return events.length / days`.
Real-number (IEEE `number`) arithmetic is modelled over `ℚ`; Lean's `x / 0 = 0`
stands where JavaScript produces `Infinity`/`NaN`, which the spec makes a
caller precondition. -/
def calculateMeetingDensity (events : List CalEvent) (startDate endDate : Int) : ℚ :=
  let days : Int := ⌈((endDate - startDate : ℚ)) / (24 * 60 * 60 * 1000)⌉
  (events.length : ℚ) / (days : ℚ)

/-- The grouping key of `groupEventsByDay`:
`event.startDate.toISOString().split('T')[0]` is the UTC calendar date
`YYYY-MM-DD`; two timestamps have the same date string iff they lie in the
same UTC day, so the key is modelled by the UTC day index
`floor(t / 86400000)`. -/
def isoDayKey (t : Int) : Int :=
  t.fdiv (24 * 60 * 60 * 1000)

/-- JavaScript `Map.prototype.get` on an insertion-ordered association list:
the value at the first (unique) entry with the queried key. -/
def mapGet (m : List (Int × List CalEvent)) (k : Int) : Option (List CalEvent) :=
  match m with
  | [] => none
  | p :: rest => if p.1 = k then some p.2 else mapGet rest k

/-- JavaScript `Map.prototype.set`: overwrite in place if the key exists,
otherwise append the new entry. -/
def mapSet (m : List (Int × List CalEvent)) (k : Int) (v : List CalEvent) :
    List (Int × List CalEvent) :=
  match m with
  | [] => [(k, v)]
  | p :: rest => if p.1 = k then (k, v) :: rest else p :: mapSet rest k v

/-- `groupEventsByDay(events)` from `src/utils/conflict-detector.ts`: fold the
events into a `Map`, appending each event to the list at its day key.  (The
source line `if (!dateKey) continue` is dead: `toISOString` always yields a
non-empty date component.) -/
def groupEventsByDay (events : List CalEvent) : List (Int × List CalEvent) :=
  events.foldl
    (fun grouped event =>
      let dateKey := isoDayKey event.startDate
      let dayEvents := (mapGet grouped dateKey).getD []
      mapSet grouped dateKey (dayEvents ++ [event]))
    []

/-- One raw parsed line of the AppleScript output of `listEvents` /
`listAllEvents` in `src/applescript/event-ops.ts`: the fields produced by
`line.split('|')`, with `""` standing for a missing (falsy) field. -/
structure EventLine where
  uid : String
  summary : String
  startDate : Int
  endDate : Int
  location : String := ""
  description : String := ""
  recurrence : String := ""
deriving Repr, DecidableEq

/-- The event object a line pushes when used unexpanded (both the
recurrence-failure fallback and the non-recurring branch): the base
`startDate`/`endDate` with `...(location && { location })` presence. -/
def baseOccurrence (calendar : Option String) (line : EventLine) : CalEvent :=
  { uid := line.uid
    summary := line.summary
    startDate := line.startDate
    endDate := line.endDate
    location := if line.location ≠ "" then some line.location else none
    description := if line.description ≠ "" then some line.description else none
    calendar := calendar }

/-- JavaScript `String.prototype.trim`: strip leading and trailing
whitespace.  Defined structurally over the character list so that concrete
instances evaluate in the kernel. -/
def jsTrim (s : String) : String :=
  String.mk ((s.data.dropWhile Char.isWhitespace).reverse.dropWhile Char.isWhitespace).reverse

/-- The per-line loop body shared by `listEvents` and `listAllEvents` in
`src/applescript/event-ops.ts`.  `ruleBetween` is the result of the external
`rrule` call `rrulestr('DTSTART:...\nRRULE:' + recurrence).between(queryStartDate,
queryEndDate, true)`: `some starts` when it returns the occurrence start
times, `none` when the `try` block throws (malformed rule).  The guard
`recurrence && recurrence.trim()` is truthy iff the trimmed rule is
non-empty. -/
def expandEventLine (ruleBetween : Option (List Int))
    (queryStartDate queryEndDate : Int) (calendar : Option String)
    (line : EventLine) : List CalEvent :=
  let duration := line.endDate - line.startDate
  if jsTrim line.recurrence ≠ "" then
    match ruleBetween with
    | some occurrences =>
      occurrences.map fun occurrence =>
        { uid := line.uid
          summary := line.summary
          startDate := occurrence
          endDate := occurrence + duration
          location := if line.location ≠ "" then some line.location else none
          description := if line.description ≠ "" then some line.description else none
          calendar := calendar }
    | none => [baseOccurrence calendar line]
  else
    if decide (line.startDate ≥ queryStartDate) && decide (line.startDate ≤ queryEndDate) then
      [baseOccurrence calendar line]
    else
      []

end AppleCalendar

namespace AppleCalendar

/-- C5 counterexample: the zero-length slot `{start: 5, end: 5}` does overlap
the slot `{start: 0, end: 10}` under `hasOverlap`, refuting the claim that a
zero-length slot overlaps nothing. -/
theorem hasOverlap_zero_length_counterexample :
    (TimeSlot.mk 5 5).start = (TimeSlot.mk 5 5).stop ∧
      hasOverlap (TimeSlot.mk 5 5) (TimeSlot.mk 0 10) = true := by
  constructor
  · rfl
  · decide

/-- C5 (amended): `hasOverlap a b` is true iff `a.start < b.end ∧ b.start < a.end`;
hence it is symmetric, touching intervals do not overlap, and a zero-length
slot never overlaps itself (though it can overlap a slot strictly containing
its point). -/
theorem hasOverlap_spec (a b : TimeSlot) :
    (hasOverlap a b = true ↔ a.start < b.stop ∧ b.start < a.stop) ∧
      hasOverlap a b = hasOverlap b a ∧
      (a.stop = b.start → hasOverlap a b = false) ∧
      (a.start = a.stop → hasOverlap a a = false) := by
  have key : ∀ x y : TimeSlot, hasOverlap x y = true ↔ x.start < y.stop ∧ y.start < x.stop := by
    intro x y
    simp only [hasOverlap, Bool.or_eq_true, Bool.and_eq_true, decide_eq_true_eq]
    constructor
    · rintro (⟨h1, h2⟩ | ⟨h1, h2⟩) <;> exact ⟨by omega, by omega⟩
    · rintro ⟨h1, h2⟩
      exact Or.inl ⟨h1, h2⟩
  refine ⟨key a b, ?_, ?_, ?_⟩
  · rw [Bool.eq_iff_iff, key a b, key b a]
    constructor <;> · rintro ⟨h1, h2⟩; exact ⟨h2, h1⟩
  · intro h
    rw [Bool.eq_false_iff, Ne, key a b]
    rintro ⟨h1, h2⟩
    omega
  · intro h
    rw [Bool.eq_false_iff, Ne, key a a]
    rintro ⟨h1, h2⟩
    omega

/-- C5 amended-theorem witness: touching intervals `[0,5]` and `[5,9]` do not
overlap, by the touching clause of `hasOverlap_spec` at a concrete input. -/
theorem hasOverlap_spec_witness :
    (TimeSlot.mk 0 5).stop = (TimeSlot.mk 5 9).start ∧
      hasOverlap (TimeSlot.mk 0 5) (TimeSlot.mk 5 9) = false :=
  ⟨rfl, (hasOverlap_spec (TimeSlot.mk 0 5) (TimeSlot.mk 5 9)).2.2.1 rfl⟩

/-- C3: when the recurrence rule is non-empty after trimming but the rrule
parse/expansion throws (`ruleBetween = none`), the line yields exactly the
single base occurrence — its own base start and end — regardless of whether
that base start lies inside the query window, and the expander returns
normally (total function, no error value). -/
theorem expandEventLine_fallback (queryStartDate queryEndDate : Int)
    (calendar : Option String) (line : EventLine)
    (h : jsTrim line.recurrence ≠ "") :
    expandEventLine none queryStartDate queryEndDate calendar line =
      [baseOccurrence calendar line] := by
  simp only [expandEventLine, if_pos h]

/-- C3 witness: a malformed rule on an event whose base start `500` lies
outside the query window `[0, 100]` still yields the single base
occurrence. -/
theorem expandEventLine_fallback_witness :
    (jsTrim "FREQ=BOGUS" ≠ "") ∧
      expandEventLine none 0 100 (some "life")
          { uid := "u1", summary := "s", startDate := 500, endDate := 900,
            recurrence := "FREQ=BOGUS" } =
        [{ uid := "u1", summary := "s", startDate := 500, endDate := 900,
           calendar := some "life" }] := by
  refine ⟨by decide, ?_⟩
  rw [expandEventLine_fallback 0 100 (some "life")
    { uid := "u1", summary := "s", startDate := 500, endDate := 900,
      recurrence := "FREQ=BOGUS" } (by decide)]
  decide

/-- C4: every occurrence emitted by the expansion of one line has duration
`line.endDate - line.startDate`: the base duration is computed once and the
rule (the `ruleBetween` start list) only moves occurrence starts. -/
theorem expandEventLine_duration (ruleBetween : Option (List Int))
    (queryStartDate queryEndDate : Int) (calendar : Option String)
    (line : EventLine) (occ : CalEvent)
    (hmem : occ ∈ expandEventLine ruleBetween queryStartDate queryEndDate calendar line) :
    occ.endDate - occ.startDate = line.endDate - line.startDate := by
  simp only [expandEventLine] at hmem
  split at hmem
  · cases ruleBetween with
    | none =>
      simp only [List.mem_singleton] at hmem
      subst hmem
      rfl
    | some occurrences =>
      simp only [List.mem_map] at hmem
      obtain ⟨t, -, rfl⟩ := hmem
      simp only []
      omega
  · split at hmem
    · simp only [List.mem_singleton] at hmem
      subst hmem
      rfl
    · simp at hmem

/-- C4 witness: a rule expanding to starts `1000` and `2000` on a base event
`[100, 500]` emits the occurrence `[1000, 1400]`, whose duration `400` equals
the base duration. -/
theorem expandEventLine_duration_witness :
    (CalEvent.mk "u" "s" 1000 1400 none none none) ∈
        expandEventLine (some [1000, 2000]) 0 5000 none
          { uid := "u", summary := "s", startDate := 100, endDate := 500,
            recurrence := "FREQ=DAILY" } ∧
      (1400 : Int) - 1000 = 500 - 100 := by
  have hmem : (CalEvent.mk "u" "s" 1000 1400 none none none) ∈
      expandEventLine (some [1000, 2000]) 0 5000 none
        { uid := "u", summary := "s", startDate := 100, endDate := 500,
          recurrence := "FREQ=DAILY" } := by decide
  refine ⟨hmem, ?_⟩
  have h := expandEventLine_duration (some [1000, 2000]) 0 5000 none
    { uid := "u", summary := "s", startDate := 100, endDate := 500,
      recurrence := "FREQ=DAILY" }
    (CalEvent.mk "u" "s" 1000 1400 none none none) hmem
  simp at h
  omega

/-- C6: a line whose rule trims to empty is treated as non-recurring: it
yields the single base occurrence iff its base start lies in
`[queryStartDate, queryEndDate]` inclusive on both ends, and nothing
otherwise. -/
theorem expandEventLine_nonrecurring (ruleBetween : Option (List Int))
    (queryStartDate queryEndDate : Int) (calendar : Option String)
    (line : EventLine) (h : jsTrim line.recurrence = "") :
    (expandEventLine ruleBetween queryStartDate queryEndDate calendar line =
        [baseOccurrence calendar line] ↔
      queryStartDate ≤ line.startDate ∧ line.startDate ≤ queryEndDate) ∧
    (¬(queryStartDate ≤ line.startDate ∧ line.startDate ≤ queryEndDate) →
      expandEventLine ruleBetween queryStartDate queryEndDate calendar line = []) := by
  have hchar : expandEventLine ruleBetween queryStartDate queryEndDate calendar line =
      if queryStartDate ≤ line.startDate ∧ line.startDate ≤ queryEndDate then
        [baseOccurrence calendar line]
      else [] := by
    simp only [expandEventLine, h, ne_eq, not_true_eq_false, if_false]
    by_cases hin : queryStartDate ≤ line.startDate ∧ line.startDate ≤ queryEndDate
    · rw [if_pos hin, if_pos]
      simp only [Bool.and_eq_true, decide_eq_true_eq, ge_iff_le]
      exact hin
    · rw [if_neg hin, if_neg]
      simp only [Bool.and_eq_true, decide_eq_true_eq, ge_iff_le]
      exact hin
  rw [hchar]
  constructor
  · by_cases hin : queryStartDate ≤ line.startDate ∧ line.startDate ≤ queryEndDate
    · simp [hin]
    · simp [hin]
  · intro hout
    rw [if_neg hout]

/-- Helper for C1: every slot produced from loop position `currentTime` on is
free, has length `duration`, ends inside the window, and (under
`businessHoursOnly`) starts at an hour in `[9, 17)`. -/
theorem findFreeSlots.go_sound (getHours : Int → Int) (endDate duration : Int)
    (events : List CalEvent) (businessHoursOnly : Bool) (currentTime : Int)
    (slot : TimeSlot)
    (hmem : slot ∈ findFreeSlots.go getHours endDate duration events businessHoursOnly
      currentTime) :
    isFree slot events = true ∧ slot.stop - slot.start = duration ∧
      slot.stop ≤ endDate ∧
      (businessHoursOnly = true →
        9 ≤ getHours slot.start ∧ getHours slot.start < 17) := by
  rw [findFreeSlots.go] at hmem
  by_cases h : currentTime + duration ≤ endDate
  · rw [dif_pos h] at hmem
    by_cases hbh : (businessHoursOnly &&
        (decide (getHours currentTime < 9) || decide (getHours currentTime ≥ 17))) = true
    · rw [if_pos hbh] at hmem
      exact findFreeSlots.go_sound getHours endDate duration events businessHoursOnly
        (currentTime + 30 * 60 * 1000) slot hmem
    · rw [if_neg hbh] at hmem
      by_cases hfree : isFree ⟨currentTime, currentTime + duration⟩ events = true
      · rw [if_pos hfree] at hmem
        rcases List.mem_cons.mp hmem with heq | hm
        · subst heq
          refine ⟨hfree, by simp, h, ?_⟩
          intro hbht
          subst hbht
          simp only [Bool.true_and, Bool.or_eq_true, decide_eq_true_eq, not_or,
            not_lt, not_le] at hbh
          exact ⟨hbh.1, hbh.2⟩
        · exact findFreeSlots.go_sound getHours endDate duration events businessHoursOnly
            (currentTime + 30 * 60 * 1000) slot hm
      · rw [if_neg hfree] at hmem
        exact findFreeSlots.go_sound getHours endDate duration events businessHoursOnly
          (currentTime + 30 * 60 * 1000) slot hmem
  · rw [dif_neg h] at hmem
    simp at hmem
termination_by (endDate - duration - currentTime + 1).toNat
decreasing_by all_goals omega

/-- C1: every slot returned by `findFreeSlots` is free against the event
list, has `end - start = duration`, ends at or before `endDate`, and — when
`businessHoursOnly` is set — starts at a local hour in `[9, 17)`. -/
theorem findFreeSlots_sound (getHours : Int → Int) (startDate endDate duration : Int)
    (events : List CalEvent) (businessHoursOnly : Bool) (slot : TimeSlot)
    (hmem : slot ∈ findFreeSlots getHours startDate endDate duration events
      businessHoursOnly) :
    isFree slot events = true ∧ slot.stop - slot.start = duration ∧
      slot.stop ≤ endDate ∧
      (businessHoursOnly = true →
        9 ≤ getHours slot.start ∧ getHours slot.start < 17) := by
  unfold findFreeSlots at hmem
  exact findFreeSlots.go_sound getHours endDate duration events businessHoursOnly
    startDate slot hmem

/-- C1 witness: the slot `[0, 1h]` is returned for the window `[0, 2h]` with
no events, and satisfies the soundness conjuncts. -/
theorem findFreeSlots_sound_witness :
    (TimeSlot.mk 0 3600000) ∈ findFreeSlots utcHours 0 7200000 3600000 [] false ∧
      (isFree (TimeSlot.mk 0 3600000) [] = true ∧
        (TimeSlot.mk 0 3600000).stop - (TimeSlot.mk 0 3600000).start = 3600000 ∧
        (TimeSlot.mk 0 3600000).stop ≤ 7200000 ∧
        (false = true →
          9 ≤ utcHours (TimeSlot.mk 0 3600000).start ∧
            utcHours (TimeSlot.mk 0 3600000).start < 17)) := by
  have hmem : (TimeSlot.mk 0 3600000) ∈ findFreeSlots utcHours 0 7200000 3600000 [] false := by
    simp [findFreeSlots, findFreeSlots.go, isFree, findConflicts]
  exact ⟨hmem, findFreeSlots_sound utcHours 0 7200000 3600000 [] false
    (TimeSlot.mk 0 3600000) hmem⟩

/-- Helper for C10: every slot produced from loop position `currentTime` on
starts a whole number of 30-minute steps after `currentTime`. -/
theorem findFreeSlots.go_aligned (getHours : Int → Int) (endDate duration : Int)
    (events : List CalEvent) (businessHoursOnly : Bool) (currentTime : Int)
    (slot : TimeSlot)
    (hmem : slot ∈ findFreeSlots.go getHours endDate duration events businessHoursOnly
      currentTime) :
    ∃ k : ℕ, slot.start = currentTime + (k : Int) * (30 * 60 * 1000) := by
  rw [findFreeSlots.go] at hmem
  by_cases h : currentTime + duration ≤ endDate
  · rw [dif_pos h] at hmem
    by_cases hbh : (businessHoursOnly &&
        (decide (getHours currentTime < 9) || decide (getHours currentTime ≥ 17))) = true
    · rw [if_pos hbh] at hmem
      obtain ⟨k, hk⟩ := findFreeSlots.go_aligned getHours endDate duration events
        businessHoursOnly (currentTime + 30 * 60 * 1000) slot hmem
      refine ⟨k + 1, ?_⟩
      push_cast at hk ⊢
      omega
    · rw [if_neg hbh] at hmem
      by_cases hfree : isFree ⟨currentTime, currentTime + duration⟩ events = true
      · rw [if_pos hfree] at hmem
        rcases List.mem_cons.mp hmem with heq | hm
        · subst heq
          exact ⟨0, by simp⟩
        · obtain ⟨k, hk⟩ := findFreeSlots.go_aligned getHours endDate duration events
            businessHoursOnly (currentTime + 30 * 60 * 1000) slot hm
          refine ⟨k + 1, ?_⟩
          push_cast at hk ⊢
          omega
      · rw [if_neg hfree] at hmem
        obtain ⟨k, hk⟩ := findFreeSlots.go_aligned getHours endDate duration events
          businessHoursOnly (currentTime + 30 * 60 * 1000) slot hmem
        refine ⟨k + 1, ?_⟩
        push_cast at hk ⊢
        omega
  · rw [dif_neg h] at hmem
    simp at hmem
termination_by (endDate - duration - currentTime + 1).toNat
decreasing_by all_goals omega

/-- C10: every returned slot starts at `startDate + k * 30min` for some
`k : ℕ` — the candidate grid is anchored at `startDate`, and skipping
candidates under `businessHoursOnly` preserves the alignment. -/
theorem findFreeSlots_aligned (getHours : Int → Int) (startDate endDate duration : Int)
    (events : List CalEvent) (businessHoursOnly : Bool) (slot : TimeSlot)
    (hmem : slot ∈ findFreeSlots getHours startDate endDate duration events
      businessHoursOnly) :
    ∃ k : ℕ, slot.start = startDate + (k : Int) * (30 * 60 * 1000) := by
  unfold findFreeSlots at hmem
  exact findFreeSlots.go_aligned getHours endDate duration events businessHoursOnly
    startDate slot hmem

/-- C10 witness: the second slot returned for the window `[0, 1h]` starts one
30-minute step after the window start. -/
theorem findFreeSlots_aligned_witness :
    (TimeSlot.mk 1800000 3600000) ∈ findFreeSlots utcHours 0 3600000 1800000 [] false ∧
      (∃ k : ℕ, (TimeSlot.mk 1800000 3600000).start = 0 + (k : Int) * (30 * 60 * 1000)) := by
  have hmem : (TimeSlot.mk 1800000 3600000) ∈
      findFreeSlots utcHours 0 3600000 1800000 [] false := by
    simp [findFreeSlots, findFreeSlots.go, isFree, findConflicts]
  exact ⟨hmem, findFreeSlots_aligned utcHours 0 3600000 1800000 [] false
    (TimeSlot.mk 1800000 3600000) hmem⟩

/-- Helper for C7: with no events and business-hour gating off, the loop from
`currentTime` returns exactly one slot per candidate position, in
construction order. -/
theorem findFreeSlots.go_nil_eq (getHours : Int → Int) (endDate duration currentTime : Int) :
    findFreeSlots.go getHours endDate duration [] false currentTime =
      if currentTime + duration ≤ endDate then
        (List.range ((endDate - duration - currentTime).toNat / (30 * 60 * 1000) + 1)).map
          (fun k => ⟨currentTime + (k : Int) * (30 * 60 * 1000),
            currentTime + (k : Int) * (30 * 60 * 1000) + duration⟩)
      else [] := by
  rw [findFreeSlots.go]
  by_cases h : currentTime + duration ≤ endDate
  · rw [dif_pos h, if_pos h, if_neg (by simp), if_pos (by rfl)]
    rw [findFreeSlots.go_nil_eq getHours endDate duration (currentTime + 30 * 60 * 1000)]
    by_cases h2 : currentTime + 30 * 60 * 1000 + duration ≤ endDate
    · rw [if_pos h2]
      have hcnt : (endDate - duration - currentTime).toNat / (30 * 60 * 1000) + 1
          = ((endDate - duration - (currentTime + 30 * 60 * 1000)).toNat / (30 * 60 * 1000)
              + 1) + 1 := by
        have h3 : (endDate - duration - currentTime).toNat
            = (endDate - duration - (currentTime + 30 * 60 * 1000)).toNat + 30 * 60 * 1000 := by
          omega
        rw [h3, Nat.add_div_right]
        norm_num
      conv_rhs => rw [hcnt, List.range_succ_eq_map, List.map_cons, List.map_map]
      congr 1
      · simp
      · refine List.map_congr_left ?_
        intro k hk
        simp only [Function.comp_apply, Nat.succ_eq_add_one]
        congr 1 <;> push_cast <;> ring
    · rw [if_neg h2]
      have h4 : (endDate - duration - currentTime).toNat / (30 * 60 * 1000) = 0 :=
        Nat.div_eq_of_lt (by omega)
      rw [h4]
      have h5 : List.range 1 = [0] := rfl
      rw [h5]
      simp only [zero_add, List.map_cons, List.map_nil, Nat.cast_zero, zero_mul, add_zero]
  · rw [dif_neg h, if_neg h]
termination_by (endDate - duration - currentTime + 1).toNat
decreasing_by all_goals omega

/-- C7: for an empty event list, gating off and `0 < duration ≤ window
length`, `findFreeSlots` returns exactly
`(endDate - startDate - duration) / 30min + 1` slots (floor division), in
chronological order, the `k`-th starting at `startDate + k * 30min`; adjacent
slots are not merged. -/
theorem findFreeSlots_complete (getHours : Int → Int) (startDate endDate duration : Int)
    (_h1 : 0 < duration) (h2 : duration ≤ endDate - startDate) :
    findFreeSlots getHours startDate endDate duration [] false =
      (List.range ((endDate - startDate - duration).toNat / (30 * 60 * 1000) + 1)).map
        (fun k => ⟨startDate + (k : Int) * (30 * 60 * 1000),
          startDate + (k : Int) * (30 * 60 * 1000) + duration⟩) := by
  unfold findFreeSlots
  rw [findFreeSlots.go_nil_eq, if_pos (by omega)]
  have h3 : endDate - duration - startDate = endDate - startDate - duration := by ring
  rw [h3]

/-- C7 witness: the window `[0, 1h]` with a 30-minute duration yields exactly
the two slots `[0, 30min]` and `[30min, 1h]`. -/
theorem findFreeSlots_complete_witness :
    (0 : Int) < 1800000 ∧ (1800000 : Int) ≤ 3600000 - 0 ∧
      findFreeSlots utcHours 0 3600000 1800000 [] false =
        [TimeSlot.mk 0 1800000, TimeSlot.mk 1800000 3600000] := by
  refine ⟨by norm_num, by norm_num, ?_⟩
  rw [findFreeSlots_complete utcHours 0 3600000 1800000 (by norm_num) (by norm_num)]
  decide

/-- C8: `calculateMeetingDensity` equals `count / days` with
`days = ceil((endDate - startDate) / 86400000)`, and the division is exact
(`density * days = count`) whenever `days ≠ 0`; the function is total — there
is no internal guard for `days = 0`, avoiding it is a caller precondition. -/
theorem calculateMeetingDensity_spec (events : List CalEvent) (startDate endDate : Int)
    (h : (⌈((endDate - startDate : ℚ)) / (24 * 60 * 60 * 1000)⌉ : Int) ≠ 0) :
    calculateMeetingDensity events startDate endDate =
        (events.length : ℚ) /
          ((⌈((endDate - startDate : ℚ)) / (24 * 60 * 60 * 1000)⌉ : Int) : ℚ) ∧
      calculateMeetingDensity events startDate endDate *
          ((⌈((endDate - startDate : ℚ)) / (24 * 60 * 60 * 1000)⌉ : Int) : ℚ) =
        (events.length : ℚ) := by
  constructor
  · rfl
  · have hq : ((⌈((endDate - startDate : ℚ)) / (24 * 60 * 60 * 1000)⌉ : Int) : ℚ) ≠ 0 := by
      exact_mod_cast h
    exact div_mul_cancel₀ _ hq

/-- C8 witness: three events over a two-day period give density `3 / 2`, and
`density * 2 = 3`. -/
theorem calculateMeetingDensity_spec_witness :
    ((⌈((172800000 - 0 : ℚ)) / (24 * 60 * 60 * 1000)⌉ : Int) ≠ 0) ∧
      (calculateMeetingDensity
          [CalEvent.mk "a" "a" 0 1 none none none,
           CalEvent.mk "b" "b" 2 3 none none none,
           CalEvent.mk "c" "c" 4 5 none none none] 0 172800000 =
          (([CalEvent.mk "a" "a" 0 1 none none none,
             CalEvent.mk "b" "b" 2 3 none none none,
             CalEvent.mk "c" "c" 4 5 none none none] : List CalEvent).length : ℚ) /
            ((⌈((172800000 - 0 : ℚ)) / (24 * 60 * 60 * 1000)⌉ : Int) : ℚ) ∧
        calculateMeetingDensity
            [CalEvent.mk "a" "a" 0 1 none none none,
             CalEvent.mk "b" "b" 2 3 none none none,
             CalEvent.mk "c" "c" 4 5 none none none] 0 172800000 *
            ((⌈((172800000 - 0 : ℚ)) / (24 * 60 * 60 * 1000)⌉ : Int) : ℚ) =
          (([CalEvent.mk "a" "a" 0 1 none none none,
             CalEvent.mk "b" "b" 2 3 none none none,
             CalEvent.mk "c" "c" 4 5 none none none] : List CalEvent).length : ℚ)) := by
  refine ⟨by norm_num, ?_⟩
  exact calculateMeetingDensity_spec
    [CalEvent.mk "a" "a" 0 1 none none none,
     CalEvent.mk "b" "b" 2 3 none none none,
     CalEvent.mk "c" "c" 4 5 none none none] 0 172800000 (by norm_num)

/-- Helper for C9: `mapGet` after `mapSet` reads back the written value at
the written key and is unchanged elsewhere. -/
theorem mapGet_mapSet (m : List (Int × List CalEvent)) (k k2 : Int) (v : List CalEvent) :
    mapGet (mapSet m k v) k2 = if k2 = k then some v else mapGet m k2 := by
  induction m with
  | nil =>
    simp only [mapSet, mapGet]
    by_cases h : k2 = k
    · subst h
      rw [if_pos rfl]
    · rw [if_neg (by omega), if_neg h]
  | cons p rest ih =>
    by_cases hpk : p.1 = k
    · simp only [mapSet, if_pos hpk, mapGet]
      by_cases h : k2 = k
      · subst h
        rw [if_pos rfl, if_pos rfl]
      · rw [if_neg (by omega), if_neg h, if_neg (by omega)]
    · simp only [mapSet, if_neg hpk, mapGet]
      by_cases hp2 : p.1 = k2
      · rw [if_pos hp2, if_neg (by omega), if_pos hp2]
      · rw [if_neg hp2, ih]
        by_cases h : k2 = k
        · rw [if_pos h, if_pos h]
        · rw [if_neg h, if_neg h, if_neg hp2]

/-- Helper for C9: the grouping fold, started from any accumulator, extends
each day's list with exactly the events of that day, in input order. -/
theorem groupEventsByDay_go (events : List CalEvent) (acc : List (Int × List CalEvent))
    (k : Int) :
    (mapGet (events.foldl
        (fun grouped event =>
          let dateKey := isoDayKey event.startDate
          let dayEvents := (mapGet grouped dateKey).getD []
          mapSet grouped dateKey (dayEvents ++ [event]))
        acc) k).getD [] =
      ((mapGet acc k).getD []) ++
        events.filter (fun e => isoDayKey e.startDate == k) := by
  induction events generalizing acc with
  | nil => simp
  | cons e es ih =>
    rw [List.foldl_cons, ih]
    simp only [mapGet_mapSet]
    by_cases hk : k = isoDayKey e.startDate
    · subst hk
      rw [if_pos rfl, Option.getD_some,
        List.filter_cons_of_pos (by simp only [beq_iff_eq])]
      simp [List.append_assoc]
    · rw [if_neg hk,
        List.filter_cons_of_neg (by simp only [beq_iff_eq]; omega)]

/-- C9: `groupEventsByDay` partitions its input: for every day key `k` the
group at `k` is exactly the subsequence of the input events whose start
timestamp has UTC date `k` (so each event is filed exactly once, only under
its start date — never split across midnight — and groups keep input
order); keys absent from the map correspond to the empty subsequence. -/
theorem groupEventsByDay_spec (events : List CalEvent) (k : Int) :
    (mapGet (groupEventsByDay events) k).getD [] =
      events.filter (fun e => isoDayKey e.startDate == k) := by
  have h := groupEventsByDay_go events [] k
  simp only [mapGet, List.find?, Option.map_none, Option.getD_none, List.nil_append] at h
  exact h

/-- Helper for C2: the head of a filtered list is its first match. -/
theorem head?_filter_eq_find? (p : TimeSlot → Bool) (l : List TimeSlot) :
    (l.filter p).head? = l.find? p := by
  induction l with
  | nil => rfl
  | cons a l ih =>
    by_cases h : p a
    · rw [List.filter_cons_of_pos h, List.find?_cons_of_pos _ h]
      rfl
    · rw [List.filter_cons_of_neg h, List.find?_cons_of_neg _ h, ih]

/-- Helper for C2: the head of the stable descending sort by a 0/1 score is
the first list element attaining the top score — the first preferred-hour
element when one exists, the first element otherwise. -/
theorem head_mergeSort_scored (free : List TimeSlot) (pred : TimeSlot → Bool)
    (hne : free ≠ []) :
    ((free.map fun s => (s, if pred s then (1 : Int) else 0)).mergeSort
        (fun a b => decide (b.2 ≤ a.2))).head?.map Prod.fst =
      if free.any pred then free.find? pred else free.head? := by
  have trans : ∀ a b c : TimeSlot × Int, decide (b.2 ≤ a.2) = true →
      decide (c.2 ≤ b.2) = true → decide (c.2 ≤ a.2) = true := by
    intro a b c hab hbc
    simp only [decide_eq_true_eq] at hab hbc ⊢
    omega
  have total : ∀ a b : TimeSlot × Int,
      (decide (b.2 ≤ a.2) || decide (a.2 ≤ b.2)) = true := by
    intro a b
    simp only [Bool.or_eq_true, decide_eq_true_eq]
    omega
  by_cases hany : free.any pred
  · rw [if_pos hany]
    have hscore : ∀ x ∈ free.map fun s => (s, if pred s then (1 : Int) else 0),
        x.2 = 0 ∨ x.2 = 1 := by
      intro x hx
      obtain ⟨s, hs, rfl⟩ := List.mem_map.mp hx
      by_cases hps : pred s <;> simp [hps]
    have hqf : ∀ s, (fun x : TimeSlot × Int => decide (x.2 = 1)) ((fun s =>
        (s, if pred s then (1 : Int) else 0)) s) = pred s := by
      intro s
      by_cases hps : pred s <;> simp [hps]
    have hpairc : ((free.map fun s => (s, if pred s then (1 : Int) else 0)).filter
        fun x : TimeSlot × Int => decide (x.2 = 1)).Pairwise
          (fun a b : TimeSlot × Int => decide (b.2 ≤ a.2)) := by
      apply List.pairwise_of_forall_mem_list
      intro a ha b hb
      have ha2 := (List.mem_filter.mp ha).2
      have hb2 := (List.mem_filter.mp hb).2
      simp only [decide_eq_true_eq] at ha2 hb2 ⊢
      omega
    have hcsub : List.Sublist
        ((free.map fun s => (s, if pred s then (1 : Int) else 0)).filter
          fun x : TimeSlot × Int => decide (x.2 = 1))
        ((free.map fun s => (s, if pred s then (1 : Int) else 0)).mergeSort
          (fun a b => decide (b.2 ≤ a.2))) :=
      List.sublist_mergeSort trans total hpairc (List.filter_sublist _)
    have hperm : List.Perm
        ((free.map fun s => (s, if pred s then (1 : Int) else 0)).mergeSort
          (fun a b => decide (b.2 ≤ a.2)))
        (free.map fun s => (s, if pred s then (1 : Int) else 0)) :=
      List.mergeSort_perm _ _
    have hlen : (((free.map fun s => (s, if pred s then (1 : Int) else 0)).mergeSort
        (fun a b => decide (b.2 ≤ a.2))).filter
          (fun x : TimeSlot × Int => decide (x.2 = 1))).length =
        (((free.map fun s => (s, if pred s then (1 : Int) else 0))).filter
          (fun x : TimeSlot × Int => decide (x.2 = 1))).length :=
      (hperm.filter _).length_eq
    have hsubf : List.Sublist
        ((free.map fun s => (s, if pred s then (1 : Int) else 0)).filter
          fun x : TimeSlot × Int => decide (x.2 = 1))
        (((free.map fun s => (s, if pred s then (1 : Int) else 0)).mergeSort
          (fun a b => decide (b.2 ≤ a.2))).filter
            (fun x : TimeSlot × Int => decide (x.2 = 1))) := by
      have h1 : (((free.map fun s => (s, if pred s then (1 : Int) else 0)).filter
          fun x : TimeSlot × Int => decide (x.2 = 1)).filter
            (fun x : TimeSlot × Int => decide (x.2 = 1))) =
          ((free.map fun s => (s, if pred s then (1 : Int) else 0)).filter
            fun x : TimeSlot × Int => decide (x.2 = 1)) := by
        rw [List.filter_eq_self]
        intro a ha
        exact (List.mem_filter.mp ha).2
      rw [← h1]
      exact hcsub.filter _
    have hceq : ((free.map fun s => (s, if pred s then (1 : Int) else 0)).filter
        fun x : TimeSlot × Int => decide (x.2 = 1)) =
        (((free.map fun s => (s, if pred s then (1 : Int) else 0)).mergeSort
          (fun a b => decide (b.2 ≤ a.2))).filter
            (fun x : TimeSlot × Int => decide (x.2 = 1))) :=
      hsubf.eq_of_length hlen.symm
    obtain ⟨s1, hs1, hps1⟩ := List.any_eq_true.mp hany
    have hmem1 : ((s1, if pred s1 then (1 : Int) else 0) : TimeSlot × Int) ∈
        ((free.map fun s => (s, if pred s then (1 : Int) else 0)).filter
          fun x : TimeSlot × Int => decide (x.2 = 1)) := by
      rw [List.mem_filter]
      refine ⟨List.mem_map_of_mem _ hs1, ?_⟩
      simp [hps1]
    have hcne := List.ne_nil_of_mem hmem1
    have hsne : ((free.map fun s => (s, if pred s then (1 : Int) else 0)).mergeSort
        (fun a b => decide (b.2 ≤ a.2))) ≠ [] := by
      intro hnil
      rw [hnil] at hceq
      simp only [List.filter_nil] at hceq
      exact hcne hceq
    obtain ⟨h0, t, hht⟩ : ∃ h0 t,
        ((free.map fun s => (s, if pred s then (1 : Int) else 0)).mergeSort
          (fun a b => decide (b.2 ≤ a.2))) = h0 :: t := by
      cases hs : ((free.map fun s => (s, if pred s then (1 : Int) else 0)).mergeSort
          (fun a b => decide (b.2 ≤ a.2))) with
      | nil => exact absurd hs hsne
      | cons a b => exact ⟨a, b, rfl⟩
    have hsortedpw := List.sorted_mergeSort trans total
      (free.map fun s => (s, if pred s then (1 : Int) else 0))
    rw [hht] at hsortedpw
    have hq0 : (decide (h0.2 = 1)) = true := by
      by_contra hq0f
      have h0mem : h0 ∈ (free.map fun s => (s, if pred s then (1 : Int) else 0)) :=
        List.mem_mergeSort.mp (by rw [hht]; exact List.mem_cons_self _ _)
      have h00 : h0.2 = 0 := by
        rcases hscore h0 h0mem with h | h
        · exact h
        · exact absurd (by simp [h]) hq0f
      have hfilnil : (((free.map fun s => (s, if pred s then (1 : Int) else 0)).mergeSort
          (fun a b => decide (b.2 ≤ a.2))).filter
            (fun x : TimeSlot × Int => decide (x.2 = 1))) = [] := by
        rw [hht, List.filter_cons_of_neg (by simpa using hq0f), List.filter_eq_nil_iff]
        intro y hy
        have hyl : y ∈ (free.map fun s => (s, if pred s then (1 : Int) else 0)) :=
          List.mem_mergeSort.mp (by rw [hht]; exact List.mem_cons_of_mem _ hy)
        have hle : decide (y.2 ≤ h0.2) = true := (List.pairwise_cons.mp hsortedpw).1 y hy
        simp only [decide_eq_true_eq] at hle ⊢
        rcases hscore y hyl with h | h <;> omega
      rw [← hceq] at hfilnil
      exact hcne hfilnil
    have hchead : ((free.map fun s => (s, if pred s then (1 : Int) else 0)).filter
        fun x : TimeSlot × Int => decide (x.2 = 1)).head? = some h0 := by
      rw [hceq, hht]
      simp only [List.filter_cons, hq0, if_true, List.head?_cons]
    have hlf : ((free.map fun s => (s, if pred s then (1 : Int) else 0)).filter
        fun x : TimeSlot × Int => decide (x.2 = 1)) =
        (free.filter pred).map fun s => (s, if pred s then (1 : Int) else 0) := by
      rw [List.filter_map]
      congr 1
      apply List.filter_congr
      intro s hs
      exact hqf s
    rw [hlf, List.head?_map] at hchead
    rw [hht]
    obtain ⟨s0, hs0, hfs0⟩ : ∃ s0, (free.filter pred).head? = some s0 ∧
        (s0, if pred s0 then (1 : Int) else 0) = h0 := by
      cases ho : (free.filter pred).head? with
      | none =>
        rw [ho] at hchead
        simp at hchead
      | some s0 =>
        rw [ho] at hchead
        simp at hchead
        exact ⟨s0, rfl, hchead⟩
    rw [← head?_filter_eq_find?, hs0, ← hfs0]
    rfl
  · rw [if_neg hany]
    have hanyf : free.any pred = false := by
      cases h : free.any pred
      · rfl
      · exact absurd h hany
    have hallf : ∀ s ∈ free, pred s = false := by
      intro s hs
      have := List.any_eq_false.mp hanyf s hs
      cases h : pred s
      · rfl
      · exact absurd h this
    have hpair : (free.map fun s => (s, if pred s then (1 : Int) else 0)).Pairwise
        (fun a b : TimeSlot × Int => decide (b.2 ≤ a.2)) := by
      apply List.pairwise_of_forall_mem_list
      intro a ha b hb
      obtain ⟨sa, hsa, rfl⟩ := List.mem_map.mp ha
      obtain ⟨sb, hsb, rfl⟩ := List.mem_map.mp hb
      simp [hallf sa hsa, hallf sb hsb]
    rw [List.mergeSort_of_sorted hpair]
    cases free with
    | nil => exact absurd rfl hne
    | cons a rest => simp

/-- Helper for C2: closed-form characterization of `findOptimalSlot`. -/
theorem findOptimalSlot_eq (getHours : Int → Int) (candidates : List TimeSlot)
    (events : List CalEvent) (preferences : Option (List Int)) :
    findOptimalSlot getHours candidates events preferences =
      match preferences with
      | some prefs =>
        if prefs ≠ [] then
          if (candidates.filter fun slot => isFree slot events).any
              (fun slot => prefs.contains (getHours slot.start)) then
            (candidates.filter fun slot => isFree slot events).find?
              (fun slot => prefs.contains (getHours slot.start))
          else (candidates.filter fun slot => isFree slot events).head?
        else (candidates.filter fun slot => isFree slot events).head?
      | none => (candidates.filter fun slot => isFree slot events).head? := by
  simp only [findOptimalSlot]
  by_cases hfe : (candidates.filter fun slot => isFree slot events) = []
  · rw [hfe]
    cases preferences with
    | none => simp
    | some prefs =>
      by_cases hp : prefs = [] <;> simp [hp]
  · have hlen0 : ¬((candidates.filter fun slot => isFree slot events).length = 0) := by
      simpa [List.length_eq_zero] using hfe
    rw [if_neg hlen0]
    by_cases hlen1 : (candidates.filter fun slot => isFree slot events).length = 1
    · obtain ⟨s, hs⟩ := List.length_eq_one.mp hlen1
      rw [if_pos hlen1, hs]
      cases preferences with
      | none => rfl
      | some prefs =>
        by_cases hp : prefs = []
        · subst hp
          simp
        · simp only [ne_eq, hp, not_false_eq_true, if_true]
          by_cases hpred : getHours s.start ∈ prefs
          · simp [hpred]
          · simp [hpred]
    · rw [if_neg hlen1]
      cases preferences with
      | none => rfl
      | some prefs =>
        by_cases hp : prefs = []
        · subst hp
          simp
        · have hp0 : 0 < prefs.length := List.length_pos.mpr hp
          dsimp only
          rw [if_pos hp0]
          simp only [ne_eq, hp, not_false_eq_true, if_true]
          exact head_mergeSort_scored (candidates.filter fun slot => isFree slot events)
            (fun slot => prefs.contains (getHours slot.start)) hfe

/-- C2: `findOptimalSlot` returns `none` iff no candidate is free; with
preferences absent or empty it returns the first (original-order) free
candidate unmodified; with a non-empty preference list it returns the
earliest original-order free candidate among those of top score, where a
candidate scores 1 iff its start's hour-of-day is a member of the
preference list. -/
theorem findOptimalSlot_spec (getHours : Int → Int) (candidates : List TimeSlot)
    (events : List CalEvent) (preferences : Option (List Int)) :
    (findOptimalSlot getHours candidates events preferences = none ↔
        ∀ slot ∈ candidates, isFree slot events = false) ∧
      (preferences = none ∨ preferences = some [] →
        findOptimalSlot getHours candidates events preferences =
          (candidates.filter fun slot => isFree slot events).head?) ∧
      (∀ prefs, preferences = some prefs → prefs ≠ [] →
        findOptimalSlot getHours candidates events preferences =
          if (candidates.filter fun slot => isFree slot events).any
              (fun slot => prefs.contains (getHours slot.start)) then
            (candidates.filter fun slot => isFree slot events).find?
              (fun slot => prefs.contains (getHours slot.start))
          else (candidates.filter fun slot => isFree slot events).head?) := by
  have hnil : ((candidates.filter fun slot => isFree slot events) = [] ↔
      ∀ slot ∈ candidates, isFree slot events = false) := by
    rw [List.filter_eq_nil_iff]
    constructor
    · intro h slot hs
      have := h slot hs
      cases hh : isFree slot events
      · rfl
      · exact absurd hh this
    · intro h slot hs
      rw [h slot hs]
      simp
  refine ⟨?_, ?_, ?_⟩
  · rw [findOptimalSlot_eq, ← hnil]
    cases preferences with
    | none => simp [List.head?_eq_none_iff]
    | some prefs =>
      by_cases hp : prefs = []
      · subst hp
        simp [List.head?_eq_none_iff]
      · simp only [ne_eq, hp, not_false_eq_true, if_true]
        by_cases hany : (candidates.filter fun slot => isFree slot events).any
            (fun slot => prefs.contains (getHours slot.start))
        · rw [if_pos hany]
          obtain ⟨x, hx, hpx⟩ := List.any_eq_true.mp hany
          constructor
          · intro hnone
            exact absurd hpx (List.find?_eq_none.mp hnone x hx)
          · intro hfe
            rw [hfe] at hx
            simp at hx
        · rw [if_neg hany]
          simp [List.head?_eq_none_iff]
  · intro h
    rw [findOptimalSlot_eq]
    rcases h with h | h <;> subst h
    · rfl
    · simp
  · intro prefs hpe hne
    subst hpe
    rw [findOptimalSlot_eq]
    simp [hne]

/-- C2 witness: the spec's tie-break scenario — candidates at 9:00 and
14:00 UTC, both free, preferred hours `[9, 14]` — selects the earlier
9:00 slot. -/
theorem findOptimalSlot_spec_witness :
    (([9, 14] : List Int) ≠ []) ∧
      findOptimalSlot utcHours
          [TimeSlot.mk 32400000 36000000, TimeSlot.mk 50400000 54000000] []
          (some [9, 14]) =
        some (TimeSlot.mk 32400000 36000000) := by
  refine ⟨by decide, ?_⟩
  rw [(findOptimalSlot_spec utcHours
      [TimeSlot.mk 32400000 36000000, TimeSlot.mk 50400000 54000000] []
      (some [9, 14])).2.2 [9, 14] rfl (by decide)]
  decide

/-- C6 witness: with an empty rule and base start `50` inside `[0, 100]`,
exactly the base occurrence is emitted. -/
theorem expandEventLine_nonrecurring_witness :
    (jsTrim "" = "") ∧
      expandEventLine (some [7]) 0 100 none
          { uid := "u", summary := "s", startDate := 50, endDate := 80 } =
        [baseOccurrence none
          { uid := "u", summary := "s", startDate := 50, endDate := 80 }] := by
  refine ⟨rfl, ?_⟩
  exact (expandEventLine_nonrecurring (some [7]) 0 100 none
    { uid := "u", summary := "s", startDate := 50, endDate := 80 } (by decide)).1.mpr
    (by constructor <;> decide)

end AppleCalendar
